import Mathlib

/-!
Verification development for a WebRTC signaling service.

The model is a shallow embedding of:
* `src/server/roomManager.js` — the session registry (rooms, participants,
  routing, stats), with JavaScript `Map` semantics modelled by association
  lists preserving insertion order (set replaces in place, otherwise appends);
* `src/server/index.js` — the Socket.IO event handlers (`join-room`,
  `leave-room`, `offer`, `answer`, `ice-candidate`), with emitted messages
  made explicit as a list of `Emit` values;
* the client hooks `useSocket` / `useWebRTC` — the negotiation engine
  (peer-connection map, offer/answer handlers), with outbound signaling
  messages made explicit as `ClientOut` values.

SDP bodies and ICE candidates are opaque strings: the code never inspects
them.  Timestamps (`createdAt`) are carried as naturals.
-/

namespace VC

/-! ## JavaScript `Map` semantics over association lists -/

/-- `Map.prototype.has`. -/
def mapHas (m : List (String × α)) (k : String) : Bool :=
  m.any (fun e => e.1 = k)

/-- `Map.prototype.get` (returning `none` for `undefined`). -/
def mapGet (m : List (String × α)) (k : String) : Option α :=
  (m.find? (fun e => e.1 = k)).map (fun e => e.2)

/-- `Map.prototype.set`: replaces the value in place if the key is present
(preserving insertion order), otherwise appends the new entry. -/
def mapSet (m : List (String × α)) (k : String) (v : α) : List (String × α) :=
  if mapHas m k then m.map (fun e => if e.1 = k then (k, v) else e)
  else m ++ [(k, v)]

/-- `Map.prototype.delete` (the returned boolean is never used by the code). -/
def mapDelete (m : List (String × α)) (k : String) : List (String × α) :=
  m.filter (fun e => ¬ e.1 = k)

/-! ## Data model (`roomManager.js`) -/

/-- A participant record `{ odId, name, socketId }` as stored by the registry. -/
structure Participant where
  odId : String
  name : String
  socketId : String
deriving Repr, DecidableEq

/-- The `{ odId, name }` projection returned by `getParticipantsList`:
the transport handle (`socketId`) is stripped before anything is sent
to clients. -/
structure ParticipantInfo where
  odId : String
  name : String
deriving Repr, DecidableEq

/-- A room `{ id, participants, createdAt }`. -/
structure Room where
  id : String
  participants : List (String × Participant)
  createdAt : Nat
deriving Repr, DecidableEq

/-- The module-level `rooms` map. -/
abbrev Registry := List (String × Room)

/-- `MAX_PARTICIPANTS = 4`. -/
def MAX_PARTICIPANTS : Nat := 4

/-- `getOrCreateRoom(roomId)`: returns the room, creating an empty one
(timestamped `now`) when absent.  The updated registry is returned alongside. -/
def getOrCreateRoom (rooms : Registry) (roomId : String) (now : Nat) :
    Registry × Room :=
  match mapGet rooms roomId with
  | some r => (rooms, r)
  | none =>
      let r : Room := { id := roomId, participants := [], createdAt := now }
      (mapSet rooms roomId r, r)

/-- `getParticipantsList(roomId)`: `[]` for a missing room, otherwise the
insertion-ordered `{ odId, name }` projections of the participant map. -/
def getParticipantsList (rooms : Registry) (roomId : String) :
    List ParticipantInfo :=
  match mapGet rooms roomId with
  | none => []
  | some room =>
      room.participants.map (fun e => { odId := e.2.odId, name := e.2.name })

/-- Result of `addParticipant`: either `{ success: false, error: 'Room is
full' }` or `{ success: true, participants }`. -/
inductive AddResult where
  | full
  | ok (participants : List ParticipantInfo)
deriving Repr, DecidableEq

/-- `addParticipant(roomId, participant)`.  The fullness check runs
*before* the already-present (reconnection) check; both of the branches
below the check perform the same `set`. -/
def addParticipant (rooms : Registry) (roomId : String) (p : Participant)
    (now : Nat) : AddResult × Registry :=
  let res := getOrCreateRoom rooms roomId now
  let room := res.2
  if MAX_PARTICIPANTS ≤ room.participants.length then
    (AddResult.full, res.1)
  else
    let room' := { room with participants := mapSet room.participants p.odId p }
    let rooms2 := mapSet res.1 roomId room'
    (AddResult.ok (getParticipantsList rooms2 roomId), rooms2)

/-- `removeParticipant(roomId, odId)`: no-op when the room is absent;
deletes the identity, then deletes the room if it became empty. -/
def removeParticipant (rooms : Registry) (roomId : String) (odId : String) :
    Registry :=
  match mapGet rooms roomId with
  | none => rooms
  | some room =>
      let room' := { room with participants := mapDelete room.participants odId }
      let rooms1 := mapSet rooms roomId room'
      if room'.participants.length = 0 then mapDelete rooms1 roomId else rooms1

/-- `getParticipantSocketId(roomId, odId)`: `participant?.socketId || null`
(a falsy — empty — stored handle also yields `null`). -/
def getParticipantSocketId (rooms : Registry) (roomId : String)
    (odId : String) : Option String :=
  match mapGet rooms roomId with
  | none => none
  | some room =>
      match mapGet room.participants odId with
      | none => none
      | some p => if p.socketId = "" then none else some p.socketId

/-- The `{ roomCount, totalParticipants }` record of `getStats()`. -/
structure Stats where
  roomCount : Nat
  totalParticipants : Nat
deriving Repr, DecidableEq

/-- `getStats()`. -/
def getStats (rooms : Registry) : Stats :=
  { roomCount := rooms.length
    totalParticipants := (rooms.map (fun e => e.2.participants.length)).sum }

/-! ## Server event handlers (`index.js`)

Each Socket.IO handler becomes a function from the registry (and the
handling socket's state) to the updated registry plus the list of emitted
messages, in emission order. -/

/-- Payloads of the server → client messages of `index.js`. -/
inductive ServerMsg where
  | roomError (message : String)
  | roomFull
  | roomJoined (participants : List ParticipantInfo)
  | userJoined (odId : String) (name : String)
  | userLeft (odId : String)
  | offerMsg (fromUserId : String) (offer : String)
  | answerMsg (fromUserId : String) (answer : String)
  | iceMsg (fromUserId : String) (candidate : String)
deriving Repr, DecidableEq

/-- Where a message is sent: `socket.emit` (the handling client),
`socket.to(roomId).emit` (every other member of the Socket.IO room), or
`io.to(socketId).emit` (one targeted connection). -/
inductive Emit where
  | toSelf (m : ServerMsg)
  | toRoomOthers (roomId : String) (m : ServerMsg)
  | toSocket (socketId : String) (m : ServerMsg)
deriving Repr, DecidableEq

/-- The `socket.data` fields written by the `join-room` handler. -/
structure SocketData where
  roomId : Option String
  odId : Option String
deriving Repr, DecidableEq

/-- A `join-room` payload `{ roomId, userId, name }`; absent fields are
`none`. -/
structure JoinRequest where
  roomId : Option String
  userId : Option String
  name : Option String
deriving Repr, DecidableEq

/-- JavaScript falsiness of an optional string: `undefined`/`null` and the
empty string are falsy. -/
def jsFalsy : Option String → Bool
  | none => true
  | some s => s = ""

/-- ``name || `User ${userId.substring(0, 4)}` ``. -/
def defaultName (userId : String) (name : Option String) : String :=
  match name with
  | some n => if n = "" then "User " ++ userId.take 4 else n
  | none => "User " ++ userId.take 4

/-- The `join-room` handler: validation, `addParticipant`, `socket.data`
bookkeeping, then the `room-joined` snapshot to the joiner and the
`user-joined` notice to the rest of the room. -/
def joinRoomHandler (rooms : Registry) (sd : SocketData) (socketId : String)
    (req : JoinRequest) (now : Nat) : Registry × SocketData × List Emit :=
  if jsFalsy req.roomId || jsFalsy req.userId then
    (rooms, sd, [Emit.toSelf (ServerMsg.roomError "Invalid room ID or user ID")])
  else
    match req.roomId, req.userId with
    | some roomId, some userId =>
        let res := addParticipant rooms roomId
          { odId := userId, name := defaultName userId req.name
            socketId := socketId } now
        match res.1 with
        | AddResult.full => (res.2, sd, [Emit.toSelf ServerMsg.roomFull])
        | AddResult.ok parts =>
            (res.2,
             { roomId := some roomId, odId := some userId },
             [Emit.toSelf (ServerMsg.roomJoined parts),
              Emit.toRoomOthers roomId
                (ServerMsg.userJoined userId (defaultName userId req.name))])
    | _, _ => (rooms, sd, [])

/-- The `offer` handler: drops the message when the socket has no room or
the target is unknown, otherwise forwards to the target's stored socket —
with the *client-supplied* `fromUserId` field. -/
def offerHandler (rooms : Registry) (sd : SocketData) (targetUserId : String)
    (offer : String) (fromUserId : String) : List Emit :=
  match sd.roomId with
  | none => []
  | some roomId =>
      match getParticipantSocketId rooms roomId targetUserId with
      | none => []
      | some sid => [Emit.toSocket sid (ServerMsg.offerMsg fromUserId offer)]

/-- The `answer` handler (same routing as `offer`). -/
def answerHandler (rooms : Registry) (sd : SocketData) (targetUserId : String)
    (answer : String) (fromUserId : String) : List Emit :=
  match sd.roomId with
  | none => []
  | some roomId =>
      match getParticipantSocketId rooms roomId targetUserId with
      | none => []
      | some sid => [Emit.toSocket sid (ServerMsg.answerMsg fromUserId answer)]

/-- The `ice-candidate` handler (same routing as `offer`). -/
def iceCandidateHandler (rooms : Registry) (sd : SocketData)
    (targetUserId : String) (candidate : String) (fromUserId : String) :
    List Emit :=
  match sd.roomId with
  | none => []
  | some roomId =>
      match getParticipantSocketId rooms roomId targetUserId with
      | none => []
      | some sid => [Emit.toSocket sid (ServerMsg.iceMsg fromUserId candidate)]

/-! ## Client negotiation engine (`useWebRTC` / `useSocket`)

`RTCPeerConnection` objects are opaque to the claims except for their
identity, modelled by a fresh counter; SDP bodies are opaque strings.
Outbound signaling calls (`sendOffer` / `sendAnswer` / `sendIceCandidate`)
are collected as `ClientOut` values in call order. -/

/-- One `RTCPeerConnection`, identified by the order of its creation. -/
structure PeerConn where
  pcId : Nat
deriving Repr, DecidableEq

/-- The engine state: `peerConnectionsRef` (user ID → connection) plus the
creation counter. -/
structure EngineState where
  peerConnections : List (String × PeerConn)
  nextPcId : Nat
deriving Repr, DecidableEq

/-- Outbound signaling messages of the engine. -/
inductive ClientOut where
  | offerOut (targetUserId : String) (payload : String)
  | answerOut (targetUserId : String) (payload : String)
  | candidateOut (targetUserId : String) (payload : String)
deriving Repr, DecidableEq

/-- `createPeerConnection(remoteUserId)`: returns the existing connection
unchanged when one is stored, otherwise creates, wires and stores a fresh
one. -/
def createPeerConnection (s : EngineState) (remoteUserId : String) :
    PeerConn × EngineState :=
  match mapGet s.peerConnections remoteUserId with
  | some pc => (pc, s)
  | none =>
      let pc : PeerConn := { pcId := s.nextPcId }
      (pc,
       { peerConnections := mapSet s.peerConnections remoteUserId pc
         nextPcId := s.nextPcId + 1 })

/-- `createOffer(remoteUserId)` (non-error path): ensure the peer
connection exists, then `sendOffer(remoteUserId, offer)` exactly once.
The SDP body produced by the browser is opaque. -/
def createOffer (s : EngineState) (remoteUserId : String) :
    EngineState × List ClientOut :=
  let res := createPeerConnection s remoteUserId
  (res.2, [ClientOut.offerOut remoteUserId "offer-sdp"])

/-- `handleOffer({ fromUserId, offer })` (non-error path): create the peer
connection on demand, apply the offer, answer exactly once. -/
def handleOffer (s : EngineState) (fromUserId : String) :
    EngineState × List ClientOut :=
  let res := createPeerConnection s fromUserId
  (res.2, [ClientOut.answerOut fromUserId "answer-sdp"])

/-- `handleAnswer({ fromUserId, answer })`: applies the answer to the
stored connection; a missing connection is logged and dropped.  Sends
nothing either way. -/
def handleAnswer (s : EngineState) (fromUserId : String) :
    EngineState × List ClientOut :=
  match mapGet s.peerConnections fromUserId with
  | none => (s, [])
  | some _ => (s, [])

/-- `handleUserJoined({ odId })`: "We are the initiator since we were here
first" — create the offer toward the newcomer. -/
def handleUserJoined (s : EngineState) (odId : String) :
    EngineState × List ClientOut :=
  createOffer s odId

/-- `handleUserLeft({ odId })`: close and drop the stored connection. -/
def handleUserLeft (s : EngineState) (odId : String) :
    EngineState × List ClientOut :=
  ({ s with peerConnections := mapDelete s.peerConnections odId }, [])

/-- The `room-joined` handler of `useSocket`: only
`setParticipants(existingParticipants.filter(p => p.odId !== userId))`.
No engine callback is subscribed to `room-joined`, so the newcomer's
engine neither creates a peer connection nor sends anything for it. -/
def onRoomJoined (userId : String)
    (existingParticipants : List ParticipantInfo) : List ParticipantInfo :=
  existingParticipants.filter (fun p => ¬ p.odId = userId)

/-- A whole client: its own identity, the `participants` display list of
`useSocket`, and the negotiation engine. -/
structure ClientState where
  userId : String
  participants : List ParticipantInfo
  engine : EngineState
deriving Repr, DecidableEq

/-- Inbound server → client events as seen by the hooks. -/
inductive ClientIn where
  | roomJoined (participants : List ParticipantInfo)
  | userJoined (odId : String) (name : String)
  | userLeft (odId : String)
  | offerIn (fromUserId : String) (payload : String)
  | answerIn (fromUserId : String) (payload : String)
  | candidateIn (fromUserId : String) (payload : String)
deriving Repr, DecidableEq

/-- One client step: the `useSocket` handler for the event followed by the
`useWebRTC` handler subscribed to it (`user-joined`/`user-left` run both;
`room-joined` has only the `useSocket` one). -/
def clientStep (c : ClientState) : ClientIn → ClientState × List ClientOut
  | ClientIn.roomJoined ps =>
      ({ c with participants := onRoomJoined c.userId ps }, [])
  | ClientIn.userJoined odId name =>
      let ps :=
        if c.participants.any (fun p => p.odId = odId) then c.participants
        else c.participants ++ [{ odId := odId, name := name }]
      let res := handleUserJoined c.engine odId
      ({ c with participants := ps, engine := res.1 }, res.2)
  | ClientIn.userLeft odId =>
      let res := handleUserLeft c.engine odId
      ({ c with
          participants := c.participants.filter (fun p => ¬ p.odId = odId),
          engine := res.1 }, res.2)
  | ClientIn.offerIn fromUserId _ =>
      let res := handleOffer c.engine fromUserId
      ({ c with engine := res.1 }, res.2)
  | ClientIn.answerIn fromUserId _ =>
      let res := handleAnswer c.engine fromUserId
      ({ c with engine := res.1 }, res.2)
  | ClientIn.candidateIn _ _ =>
      ({ c with engine := c.engine }, [])

/-! ## Lemmas about the `Map` model -/

theorem mapGet_nil {α : Type} (k : String) :
    mapGet ([] : List (String × α)) k = none := rfl

theorem mapGet_cons {α : Type} (e : String × α) (t : List (String × α))
    (k : String) :
    mapGet (e :: t) k = if e.1 = k then some e.2 else mapGet t k := by
  by_cases h : e.1 = k
  · simp [mapGet, List.find?_cons, h]
  · simp [mapGet, List.find?_cons, h]

theorem mapHas_cons {α : Type} (e : String × α) (t : List (String × α))
    (k : String) :
    mapHas (e :: t) k = ((e.1 = k : Bool) || mapHas t k) := by
  simp [mapHas, List.any_cons]

theorem mapHas_eq_true_iff {α : Type} (m : List (String × α)) (k : String) :
    mapHas m k = true ↔ k ∈ m.map Prod.fst := by
  induction m with
  | nil => simp [mapHas]
  | cons e t ih =>
      rw [mapHas_cons]
      by_cases h : e.1 = k <;> simp [h, ih]
      exact fun hk => (h hk.symm).elim

theorem mapGet_eq_none_iff {α : Type} (m : List (String × α)) (k : String) :
    mapGet m k = none ↔ mapHas m k = false := by
  induction m with
  | nil => simp [mapGet, mapHas]
  | cons e t ih =>
      rw [mapGet_cons, mapHas_cons]
      by_cases h : e.1 = k <;> simp [h, ih]

theorem mapGet_mapSet_self {α : Type} (m : List (String × α)) (k : String)
    (v : α) : mapGet (mapSet m k v) k = some v := by
  unfold mapSet
  by_cases hh : mapHas m k = true
  · simp only [hh, if_true]
    induction m with
    | nil => simp [mapHas] at hh
    | cons e t ih =>
        rw [mapHas_cons] at hh
        by_cases h : e.1 = k
        · simp [mapGet_cons, h]
        · simp only [List.map_cons, if_neg h]
          rw [mapGet_cons, if_neg h]
          exact ih (by simpa [h] using hh)
  · simp only [hh]
    rw [if_neg (by simpa using hh)]
    induction m with
    | nil => simp [mapGet_cons]
    | cons e t ih =>
        rw [mapHas_cons] at hh
        by_cases h : e.1 = k
        · simp [h] at hh
        · simp only [List.cons_append]
          rw [mapGet_cons, if_neg h]
          exact ih (by simpa [h] using hh)

theorem mapDelete_cons {α : Type} (e : String × α) (t : List (String × α))
    (k : String) :
    mapDelete (e :: t) k =
      if e.1 = k then mapDelete t k else e :: mapDelete t k := by
  unfold mapDelete
  by_cases h : e.1 = k <;> simp [List.filter_cons, h]

theorem mapGet_replAll_ne {α : Type} (m : List (String × α)) (k k' : String)
    (v : α) (h : ¬ k = k') :
    mapGet (m.map (fun e => if e.1 = k then (k, v) else e)) k' = mapGet m k' := by
  induction m with
  | nil => rfl
  | cons e t ih =>
      by_cases he : e.1 = k
      · simp only [List.map_cons, if_pos he]
        rw [mapGet_cons, mapGet_cons]
        simp only
        rw [if_neg h, if_neg (by rw [he]; exact fun hc => h hc)]
        exact ih
      · simp only [List.map_cons, if_neg he]
        rw [mapGet_cons, mapGet_cons]
        by_cases he' : e.1 = k' <;> simp [he', ih]

theorem mapGet_append_single_ne {α : Type} (m : List (String × α))
    (k k' : String) (v : α) (h : ¬ k = k') :
    mapGet (m ++ [(k, v)]) k' = mapGet m k' := by
  induction m with
  | nil => rw [List.nil_append, mapGet_cons, mapGet_nil]; simp [h]
  | cons e t ih =>
      rw [List.cons_append, mapGet_cons, mapGet_cons]
      by_cases he' : e.1 = k' <;> simp [he', ih]

theorem mapGet_mapSet_ne {α : Type} (m : List (String × α)) (k k' : String)
    (v : α) (h : ¬ k = k') : mapGet (mapSet m k v) k' = mapGet m k' := by
  unfold mapSet
  by_cases hh : mapHas m k = true
  · simp only [hh, if_true]
    exact mapGet_replAll_ne m k k' v h
  · simp only [hh]
    rw [if_neg (by simp [hh])]
    exact mapGet_append_single_ne m k k' v h

theorem mapGet_mapDelete_self {α : Type} (m : List (String × α)) (k : String) :
    mapGet (mapDelete m k) k = none := by
  induction m with
  | nil => rfl
  | cons e t ih =>
      rw [mapDelete_cons]
      by_cases h : e.1 = k
      · simp [h, ih]
      · rw [if_neg h, mapGet_cons, if_neg h]
        exact ih

theorem mapGet_mapDelete_ne {α : Type} (m : List (String × α)) (k k' : String)
    (h : ¬ k = k') : mapGet (mapDelete m k) k' = mapGet m k' := by
  induction m with
  | nil => rfl
  | cons e t ih =>
      rw [mapDelete_cons, mapGet_cons]
      by_cases he : e.1 = k
      · have hne : ¬ e.1 = k' := by rw [he]; exact h
        rw [if_pos he, if_neg hne]
        exact ih
      · rw [if_neg he, mapGet_cons]
        by_cases he' : e.1 = k' <;> simp [he', ih]

theorem mapDelete_of_absent {α : Type} (m : List (String × α)) (k : String)
    (h : mapGet m k = none) : mapDelete m k = m := by
  induction m with
  | nil => rfl
  | cons e t ih =>
      rw [mapGet_cons] at h
      by_cases he : e.1 = k
      · simp [he] at h
      · rw [if_neg he] at h
        rw [mapDelete_cons, if_neg he, ih h]

theorem keys_mapSet {α : Type} (m : List (String × α)) (k : String) (v : α) :
    (mapSet m k v).map Prod.fst =
      if mapHas m k then m.map Prod.fst else m.map Prod.fst ++ [k] := by
  unfold mapSet
  by_cases hh : mapHas m k = true
  · simp only [hh, if_true, List.map_map]
    congr 1
    funext e
    by_cases he : e.1 = k <;> simp [he, Function.comp]
  · simp [hh]

theorem keys_mapDelete {α : Type} (m : List (String × α)) (k : String) :
    (mapDelete m k).map Prod.fst =
      (m.map Prod.fst).filter (fun j => ¬ j = k) := by
  induction m with
  | nil => rfl
  | cons e t ih =>
      rw [mapDelete_cons]
      by_cases he : e.1 = k <;> simp [List.filter_cons, he, ih]

theorem length_mapSet {α : Type} (m : List (String × α)) (k : String) (v : α) :
    (mapSet m k v).length =
      if mapHas m k then m.length else m.length + 1 := by
  unfold mapSet
  by_cases hh : mapHas m k = true <;> simp [hh]

theorem replAll_of_absent {α : Type} (m : List (String × α)) (k : String)
    (v : α) (h : mapHas m k = false) :
    m.map (fun e => if e.1 = k then (k, v) else e) = m := by
  induction m with
  | nil => rfl
  | cons e t ih =>
      rw [mapHas_cons] at h
      by_cases he : e.1 = k
      · simp [he] at h
      · simp only [List.map_cons, if_neg he]
        rw [ih (by simpa [he] using h)]

theorem mapHas_of_get_some {α : Type} (m : List (String × α)) (k : String)
    (v : α) (h : mapGet m k = some v) : mapHas m k = true := by
  cases hh : mapHas m k with
  | false => rw [← mapGet_eq_none_iff] at hh; rw [hh] at h; cases h
  | true => rfl

theorem mapSet_of_get_eq {α : Type} (m : List (String × α)) (k : String)
    (v : α) (hn : (m.map Prod.fst).Nodup) (h : mapGet m k = some v) :
    mapSet m k v = m := by
  induction m with
  | nil => cases h
  | cons e t ih =>
      rw [mapGet_cons] at h
      simp only [List.map_cons, List.nodup_cons] at hn
      by_cases he : e.1 = k
      · rw [if_pos he] at h
        have hv : v = e.2 := (Option.some.inj h).symm
        have hkt : mapHas t k = false := by
          cases hh : mapHas t k with
          | false => rfl
          | true =>
              exact absurd ((mapHas_eq_true_iff t k).mp hh) (he ▸ hn.1)
        have hkv : (k, v) = e := by rw [hv, ← he]
        have hrepl := replAll_of_absent t k v hkt
        calc mapSet (e :: t) k v
            = (k, v) :: t.map (fun x => if x.1 = k then (k, v) else x) := by
              unfold mapSet
              rw [mapHas_cons]
              simp [he]
          _ = e :: t := by rw [hrepl, hkv]
      · rw [if_neg he] at h
        have hkt : mapHas t k = true := mapHas_of_get_some t k v h
        have hts := ih hn.2 h
        unfold mapSet at hts ⊢
        rw [mapHas_cons]
        simp only [hkt, if_true] at hts
        simp [he, hkt, hts]

/-! ## Operation sequences

`Op` is a join or leave on one fixed room; `GOp` additionally names the
room, for properties quantifying over activity on the whole registry. -/

/-- A join or leave on a fixed room. -/
inductive Op where
  | joinOp (odId : String) (name : String) (socketId : String)
  | leaveOp (odId : String)
deriving Repr, DecidableEq

/-- Run one `Op` against the registry (timestamps are irrelevant to the
claims and fixed at 0). -/
def applyOp (roomId : String) (rooms : Registry) : Op → Registry
  | Op.joinOp i n s =>
      (addParticipant rooms roomId { odId := i, name := n, socketId := s } 0).2
  | Op.leaveOp i => removeParticipant rooms roomId i

/-- Run a sequence of `Op`s in order. -/
def applyOps (roomId : String) (rooms : Registry) (ops : List Op) : Registry :=
  ops.foldl (applyOp roomId) rooms

/-- The identities currently joined and not yet left, as dictated by the
join/leave semantics: a join admits a new identity only below the cap of 4
and is a no-op on an identity already present; a leave removes the
identity. -/
def specStep (S : List String) : Op → List String
  | Op.joinOp i _ _ =>
      if i ∈ S then S else if S.length < 4 then S ++ [i] else S
  | Op.leaveOp i => S.filter (fun j => ¬ j = i)

/-- The joined-and-not-left identities after a sequence of operations. -/
def specMembers (ops : List Op) : List String := ops.foldl specStep []

/-- A join or leave naming its room. -/
inductive GOp where
  | gJoin (roomId : String) (odId : String) (name : String) (socketId : String)
  | gLeave (roomId : String) (odId : String)
deriving Repr, DecidableEq

/-- Run one `GOp`. -/
def applyGOp (rooms : Registry) : GOp → Registry
  | GOp.gJoin rid i n s =>
      (addParticipant rooms rid { odId := i, name := n, socketId := s } 0).2
  | GOp.gLeave rid i => removeParticipant rooms rid i

/-- Run a sequence of `GOp`s in order. -/
def applyGOps (rooms : Registry) (ops : List GOp) : Registry :=
  ops.foldl applyGOp rooms

/-- Whether a `GOp` is a join on the given room. -/
def isJoinOn (roomId : String) : GOp → Bool
  | GOp.gJoin rid _ _ _ => rid = roomId
  | GOp.gLeave _ _ => false

/-! ## Scrubbing the transport handles (for the `socketId`-leak claim) -/

/-- A room with every participant record projected to `{ odId, name }`. -/
structure RoomS where
  id : String
  participants : List (String × ParticipantInfo)
  createdAt : Nat
deriving Repr, DecidableEq

/-- Drop the transport handle from a participant record. -/
def scrubParticipant (p : Participant) : ParticipantInfo :=
  { odId := p.odId, name := p.name }

/-- Drop every transport handle from a room. -/
def scrubRoom (room : Room) : RoomS :=
  { id := room.id
    participants := room.participants.map (fun e => (e.1, scrubParticipant e.2))
    createdAt := room.createdAt }

/-- Drop every transport handle from the registry.  Two registries with the
same scrub differ only in stored `socketId` values. -/
def scrubRegistry (rooms : Registry) : List (String × RoomS) :=
  rooms.map (fun e => (e.1, scrubRoom e.2))

theorem mapGet_map_comm {α β : Type} (f : α → β) (m : List (String × α))
    (k : String) :
    mapGet (m.map (fun e => (e.1, f e.2))) k = (mapGet m k).map f := by
  induction m with
  | nil => rfl
  | cons e t ih =>
      rw [List.map_cons, mapGet_cons, mapGet_cons]
      by_cases he : e.1 = k <;> simp [he, ih]

theorem mapHas_map_comm {α β : Type} (f : α → β) (m : List (String × α))
    (k : String) :
    mapHas (m.map (fun e => (e.1, f e.2))) k = mapHas m k := by
  induction m with
  | nil => rfl
  | cons e t ih =>
      rw [List.map_cons, mapHas_cons, mapHas_cons]
      by_cases he : e.1 = k <;> simp [he, ih]

theorem mapSet_map_comm {α β : Type} (f : α → β) (m : List (String × α))
    (k : String) (v : α) :
    (mapSet m k v).map (fun e => (e.1, f e.2)) =
      mapSet (m.map (fun e => (e.1, f e.2))) k (f v) := by
  unfold mapSet
  rw [mapHas_map_comm]
  by_cases hh : mapHas m k = true
  · simp only [hh, if_true, List.map_map]
    congr 1
    funext e
    by_cases he : e.1 = k <;> simp [he, Function.comp]
  · simp [hh]

/-! ## Lemmas about the registry operations -/

theorem getOrCreateRoom_of_some (rooms : Registry) (roomId : String)
    (now : Nat) (room : Room) (h : mapGet rooms roomId = some room) :
    getOrCreateRoom rooms roomId now = (rooms, room) := by
  unfold getOrCreateRoom
  rw [h]

theorem getOrCreateRoom_of_none (rooms : Registry) (roomId : String)
    (now : Nat) (h : mapGet rooms roomId = none) :
    getOrCreateRoom rooms roomId now =
      (mapSet rooms roomId { id := roomId, participants := [], createdAt := now },
       { id := roomId, participants := [], createdAt := now }) := by
  unfold getOrCreateRoom
  rw [h]

theorem addParticipant_ok_spec (rooms : Registry) (roomId : String)
    (p : Participant) (now : Nat) (parts : List ParticipantInfo)
    (r' : Registry)
    (h : addParticipant rooms roomId p now = (AddResult.ok parts, r')) :
    (getOrCreateRoom rooms roomId now).2.participants.length < 4 ∧
    r' = mapSet (getOrCreateRoom rooms roomId now).1 roomId
           { (getOrCreateRoom rooms roomId now).2 with
             participants :=
               mapSet (getOrCreateRoom rooms roomId now).2.participants p.odId p } ∧
    parts = getParticipantsList r' roomId := by
  simp only [addParticipant, MAX_PARTICIPANTS] at h
  split at h
  · exact AddResult.noConfusion (congrArg Prod.fst h)
  · next hc =>
      rw [Prod.mk.injEq] at h
      obtain ⟨h1, h2⟩ := h
      exact ⟨Nat.lt_of_not_le hc, h2.symm,
        by rw [← AddResult.ok.inj h1, h2]⟩

theorem addParticipant_full_spec (rooms : Registry) (roomId : String)
    (p : Participant) (now : Nat) (r' : Registry)
    (h : addParticipant rooms roomId p now = (AddResult.full, r')) :
    4 ≤ (getOrCreateRoom rooms roomId now).2.participants.length ∧
    r' = rooms ∧
    mapGet rooms roomId = some (getOrCreateRoom rooms roomId now).2 := by
  simp only [addParticipant, MAX_PARTICIPANTS] at h
  split at h
  · next hc =>
      have hr : _ = r' := congrArg Prod.snd h
      cases hg : mapGet rooms roomId with
      | none =>
          rw [getOrCreateRoom_of_none rooms roomId now hg] at hc
          simp at hc
      | some room =>
          have hoc := getOrCreateRoom_of_some rooms roomId now room hg
          have hr' : (getOrCreateRoom rooms roomId now).1 = r' := hr
          refine ⟨hc, ?_, ?_⟩
          · rw [hoc] at hr'
            exact hr'.symm
          · rw [hoc]
  · exact AddResult.noConfusion (congrArg Prod.fst h)

theorem removeParticipant_of_absent_room (rooms : Registry) (roomId : String)
    (i : String) (h : mapGet rooms roomId = none) :
    removeParticipant rooms roomId i = rooms := by
  unfold removeParticipant
  rw [h]

theorem getParticipantSocketId_of_absent_room (rooms : Registry)
    (roomId : String) (j : String) (h : mapGet rooms roomId = none) :
    getParticipantSocketId rooms roomId j = none := by
  unfold getParticipantSocketId
  rw [h]

theorem addParticipant_preserves_other_room (rooms : Registry)
    (rid : String) (p : Participant) (now : Nat) (roomId : String)
    (hne : ¬ rid = roomId) :
    mapGet (addParticipant rooms rid p now).2 roomId = mapGet rooms roomId := by
  have h1 : mapGet (getOrCreateRoom rooms rid now).1 roomId = mapGet rooms roomId := by
    cases hg : mapGet rooms rid with
    | none =>
        rw [getOrCreateRoom_of_none rooms rid now hg]
        exact mapGet_mapSet_ne rooms rid roomId _ hne
    | some room => rw [getOrCreateRoom_of_some rooms rid now room hg]
  simp only [addParticipant, MAX_PARTICIPANTS]
  split
  · exact h1
  · rw [mapGet_mapSet_ne _ rid roomId _ hne]
    exact h1

theorem removeParticipant_preserves_other_room (rooms : Registry)
    (rid : String) (i : String) (roomId : String) (hne : ¬ rid = roomId) :
    mapGet (removeParticipant rooms rid i) roomId = mapGet rooms roomId := by
  unfold removeParticipant
  cases hg : mapGet rooms rid with
  | none => rfl
  | some room =>
      simp only
      split
      · rw [mapGet_mapDelete_ne _ rid roomId hne,
          mapGet_mapSet_ne rooms rid roomId _ hne]
      · rw [mapGet_mapSet_ne rooms rid roomId _ hne]

theorem applyGOp_preserves_absent (rooms : Registry) (roomId : String)
    (op : GOp) (h : mapGet rooms roomId = none)
    (hop : isJoinOn roomId op = false) :
    mapGet (applyGOp rooms op) roomId = none := by
  cases op with
  | gJoin rid i n s =>
      have hne : ¬ rid = roomId := by simpa [isJoinOn] using hop
      rw [applyGOp, addParticipant_preserves_other_room rooms rid _ 0 roomId hne]
      exact h
  | gLeave rid i =>
      by_cases hne : rid = roomId
      · subst hne
        rw [applyGOp, removeParticipant_of_absent_room rooms rid i h]
        exact h
      · rw [applyGOp, removeParticipant_preserves_other_room rooms rid i roomId hne]
        exact h

theorem applyGOps_preserves_absent (rooms : Registry) (roomId : String)
    (ops : List GOp) (h : mapGet rooms roomId = none)
    (hops : ∀ op ∈ ops, isJoinOn roomId op = false) :
    mapGet (applyGOps rooms ops) roomId = none := by
  induction ops generalizing rooms with
  | nil => exact h
  | cons op t ih =>
      rw [applyGOps, List.foldl_cons]
      exact ih (applyGOp rooms op)
        (applyGOp_preserves_absent rooms roomId op h
          (hops op (List.mem_cons_self op t)))
        (fun o ho => hops o (List.mem_cons_of_mem op ho))

/-! ## Concrete states used as witnesses and counterexamples -/

/-- A room holding the four distinct identities `a`, `b`, `c`, `d`
(so any fifth distinct joiner has 4 others present, while `a` has 3). -/
def room4 : Room :=
  { id := "room1"
    participants :=
      [("a", { odId := "a", name := "A", socketId := "s1" }),
       ("b", { odId := "b", name := "B", socketId := "s2" }),
       ("c", { odId := "c", name := "C", socketId := "s3" }),
       ("d", { odId := "d", name := "D", socketId := "s4" })]
    createdAt := 0 }

/-- A registry holding only the full room `room1`. -/
def reg4 : Registry := [("room1", room4)]

/-- A registry holding `alice` (socket `sockA`) and `bob` (socket `sockB`)
in `room1`. -/
def regAB : Registry :=
  [("room1",
    { id := "room1"
      participants :=
        [("alice", { odId := "alice", name := "Alice", socketId := "sockA" }),
         ("bob", { odId := "bob", name := "Bob", socketId := "sockB" })]
      createdAt := 0 })]

/-! ## The claims -/

/-- C8: creating a peer connection for a remote identity is idempotent:
when a connection for that identity is already stored,
`createPeerConnection` returns the stored object and leaves the engine
state (in particular the peer-connection map) unchanged, so at most one
peer connection exists per remote identity. -/
theorem C8_createPeerConnection_idempotent (s : EngineState)
    (remoteUserId : String) (pc : PeerConn)
    (h : mapGet s.peerConnections remoteUserId = some pc) :
    createPeerConnection s remoteUserId = (pc, s) := by
  unfold createPeerConnection
  rw [h]

/-- Witness for C8 at a concrete engine state. -/
theorem C8_witness :
    mapGet (EngineState.mk [("bob", ⟨0⟩)] 1).peerConnections "bob" =
        some ⟨0⟩ ∧
    createPeerConnection (EngineState.mk [("bob", ⟨0⟩)] 1) "bob" =
        (⟨0⟩, EngineState.mk [("bob", ⟨0⟩)] 1) :=
  ⟨by decide,
   C8_createPeerConnection_idempotent (EngineState.mk [("bob", ⟨0⟩)] 1)
     "bob" ⟨0⟩ (by decide)⟩

/-- C9: a `join-room` request whose `roomId` or `userId` is missing (or
empty, which JavaScript treats the same) produces exactly one `room-error`
emit to the requesting socket and leaves the registry and the socket's
data untouched. -/
theorem C9_validation_no_mutation (rooms : Registry) (sd : SocketData)
    (socketId : String) (req : JoinRequest) (now : Nat)
    (h : (jsFalsy req.roomId || jsFalsy req.userId) = true) :
    joinRoomHandler rooms sd socketId req now =
      (rooms, sd,
       [Emit.toSelf (ServerMsg.roomError "Invalid room ID or user ID")]) := by
  unfold joinRoomHandler
  rw [if_pos h]

/-- Witness for C9: a request with no `roomId`. -/
theorem C9_witness :
    (jsFalsy (JoinRequest.mk none (some "u1") none).roomId ||
      jsFalsy (JoinRequest.mk none (some "u1") none).userId) = true ∧
    joinRoomHandler regAB (SocketData.mk none none) "sockZ"
        (JoinRequest.mk none (some "u1") none) 0 =
      (regAB, SocketData.mk none none,
       [Emit.toSelf (ServerMsg.roomError "Invalid room ID or user ID")]) :=
  ⟨rfl,
   C9_validation_no_mutation regAB (SocketData.mk none none) "sockZ"
     (JoinRequest.mk none (some "u1") none) 0 rfl⟩

/-- C3 counterexample: the `fromIdentity` delivered by the relay is NOT
independent of the client-supplied `fromUserId`.  From alice's socket
(registered identity `alice`), two `offer` relays to `bob` that differ
only in the client-supplied `fromUserId` field deliver different
`fromUserId` values — the server forwards the field verbatim. -/
theorem C3_counterexample :
    offerHandler regAB (SocketData.mk (some "room1") (some "alice"))
        "bob" "sdp" "alice" =
      [Emit.toSocket "sockB" (ServerMsg.offerMsg "alice" "sdp")] ∧
    offerHandler regAB (SocketData.mk (some "room1") (some "alice"))
        "bob" "sdp" "mallory" =
      [Emit.toSocket "sockB" (ServerMsg.offerMsg "mallory" "sdp")] ∧
    ServerMsg.offerMsg "mallory" "sdp" ≠ ServerMsg.offerMsg "alice" "sdp" := by
  refine ⟨?_, ?_, by decide⟩ <;> decide

/-- C3 (amended): every relayed `offer`, `answer` or `ice-candidate` is
either dropped or delivered with `fromUserId` equal to the value supplied
by the sending client; the server never substitutes the sender's
registered identity. -/
theorem C3_amended_fromIdentity_client_supplied (rooms : Registry)
    (sd : SocketData) (targetUserId : String) (body : String)
    (fromUserId : String) :
    (offerHandler rooms sd targetUserId body fromUserId = [] ∨
      ∃ sid, offerHandler rooms sd targetUserId body fromUserId =
        [Emit.toSocket sid (ServerMsg.offerMsg fromUserId body)]) ∧
    (answerHandler rooms sd targetUserId body fromUserId = [] ∨
      ∃ sid, answerHandler rooms sd targetUserId body fromUserId =
        [Emit.toSocket sid (ServerMsg.answerMsg fromUserId body)]) ∧
    (iceCandidateHandler rooms sd targetUserId body fromUserId = [] ∨
      ∃ sid, iceCandidateHandler rooms sd targetUserId body fromUserId =
        [Emit.toSocket sid (ServerMsg.iceMsg fromUserId body)]) := by
  refine ⟨?_, ?_, ?_⟩
  · unfold offerHandler
    cases h : sd.roomId with
    | none => exact Or.inl rfl
    | some roomId =>
        dsimp only
        cases hg : getParticipantSocketId rooms roomId targetUserId with
        | none => exact Or.inl rfl
        | some sid => exact Or.inr ⟨sid, rfl⟩
  · unfold answerHandler
    cases h : sd.roomId with
    | none => exact Or.inl rfl
    | some roomId =>
        dsimp only
        cases hg : getParticipantSocketId rooms roomId targetUserId with
        | none => exact Or.inl rfl
        | some sid => exact Or.inr ⟨sid, rfl⟩
  · unfold iceCandidateHandler
    cases h : sd.roomId with
    | none => exact Or.inl rfl
    | some roomId =>
        dsimp only
        cases hg : getParticipantSocketId rooms roomId targetUserId with
        | none => exact Or.inl rfl
        | some sid => exact Or.inr ⟨sid, rfl⟩

/-- C7: when A is already in the room and B joins, A's engine — on the
`user-joined` event for B — creates exactly one new peer connection
(stored for B, the initiator side) and sends exactly one offer, targeted
at B; B's engine — on its `room-joined` snapshot — sends nothing at all,
in particular no offer. -/
theorem C7_asymmetric_initiator (a b : ClientState) (bId nameB : String)
    (snapshot : List ParticipantInfo)
    (h : mapGet a.engine.peerConnections bId = none) :
    (clientStep a (ClientIn.userJoined bId nameB)).2 =
        [ClientOut.offerOut bId "offer-sdp"] ∧
    mapGet
        (clientStep a (ClientIn.userJoined bId nameB)).1.engine.peerConnections
        bId = some ⟨a.engine.nextPcId⟩ ∧
    (clientStep a (ClientIn.userJoined bId nameB)).1.engine.peerConnections.length =
        a.engine.peerConnections.length + 1 ∧
    (clientStep b (ClientIn.roomJoined snapshot)).2 = [] := by
  have hh : mapHas a.engine.peerConnections bId = false := by
    rw [← mapGet_eq_none_iff]; exact h
  refine ⟨?_, ?_, ?_, ?_⟩
  · simp [clientStep, handleUserJoined, createOffer, createPeerConnection, h]
  · simp only [clientStep, handleUserJoined, createOffer, createPeerConnection, h]
    exact mapGet_mapSet_self a.engine.peerConnections bId ⟨a.engine.nextPcId⟩
  · simp only [clientStep, handleUserJoined, createOffer, createPeerConnection, h]
    rw [length_mapSet, hh]
    simp
  · rfl

theorem mapSet_nil {α : Type} (k : String) (v : α) :
    mapSet ([] : List (String × α)) k v = [(k, v)] := rfl

theorem mapSet_singleton_self {α : Type} (k : String) (v v' : α) :
    mapSet [(k, v)] k v' = [(k, v')] := by
  simp [mapSet, mapHas]

theorem mapGet_singleton_self {α : Type} (k : String) (v : α) :
    mapGet [(k, v)] k = some v := by
  rw [mapGet_cons]
  simp

theorem mapDelete_singleton_self {α : Type} (k : String) (v : α) :
    mapDelete [(k, v)] k = [] := by
  rw [mapDelete_cons, if_pos rfl]
  rfl

theorem singleton_keys {α : Type} (l : List (String × α)) (i : String)
    (h : l.map Prod.fst = [i]) : ∃ p, l = [(i, p)] := by
  cases l with
  | nil => cases h
  | cons e t =>
      rw [List.map_cons] at h
      have h1 : e.1 = i := (List.cons.inj h).1
      have h2 : t = [] := List.map_eq_nil_iff.mp (List.cons.inj h).2
      exact ⟨e.2, by rw [h2, ← h1]⟩

theorem mapGet_some_exists {α : Type} (m : List (String × α)) (k : String)
    (v : α) (h : mapGet m k = some v) : ∃ e ∈ m, e.1 = k ∧ e.2 = v := by
  induction m with
  | nil => cases h
  | cons e t ih =>
      rw [mapGet_cons] at h
      by_cases he : e.1 = k
      · rw [if_pos he] at h
        exact ⟨e, List.mem_cons_self e t, he, Option.some.inj h⟩
      · rw [if_neg he] at h
        obtain ⟨x, hx, h1, h2⟩ := ih h
        exact ⟨x, List.mem_cons_of_mem e hx, h1, h2⟩

/-- C1 counterexample: joining an empty registry, the `room-joined`
snapshot sent back to the joining client is `[{u1, Alice}]` — it contains
the joining identity `u1` rather than excluding it. -/
theorem C1_counterexample :
    (joinRoomHandler [] (SocketData.mk none none) "sock1"
        (JoinRequest.mk (some "room1") (some "u1") (some "Alice")) 0).2.2 =
      [Emit.toSelf (ServerMsg.roomJoined [ParticipantInfo.mk "u1" "Alice"]),
       Emit.toRoomOthers "room1" (ServerMsg.userJoined "u1" "Alice")] ∧
    "u1" ∈ ([ParticipantInfo.mk "u1" "Alice"]).map ParticipantInfo.odId := by
  exact ⟨by decide, by decide⟩

/-- C1 (amended): on every successful join, the `room-joined` snapshot
produced from the `addParticipant` result *includes* the joining identity
(it is the full member list); the exclusion of self happens only on the
client, whose `room-joined` handler filters its own identity out. -/
theorem C1_amended_snapshot_includes_joiner (rooms : Registry)
    (roomId : String) (p : Participant) (now : Nat)
    (parts : List ParticipantInfo) (r' : Registry)
    (h : addParticipant rooms roomId p now = (AddResult.ok parts, r')) :
    p.odId ∈ parts.map ParticipantInfo.odId ∧
    ∀ q ∈ onRoomJoined p.odId parts, ¬ q.odId = p.odId := by
  obtain ⟨hlen, hr, hp⟩ := addParticipant_ok_spec rooms roomId p now parts r' h
  have hget : mapGet r' roomId =
      some { (getOrCreateRoom rooms roomId now).2 with
             participants :=
               mapSet (getOrCreateRoom rooms roomId now).2.participants
                 p.odId p } := by
    rw [hr]; exact mapGet_mapSet_self _ roomId _
  have hparts : parts =
      (mapSet (getOrCreateRoom rooms roomId now).2.participants p.odId p).map
        (fun e => { odId := e.2.odId, name := e.2.name }) := by
    rw [hp]
    unfold getParticipantsList
    rw [hget]
  constructor
  · have hpmem :
        mapGet (mapSet (getOrCreateRoom rooms roomId now).2.participants
          p.odId p) p.odId = some p :=
      mapGet_mapSet_self _ p.odId p
    obtain ⟨e, hmem, h1, h2⟩ := mapGet_some_exists _ p.odId p hpmem
    rw [hparts, List.map_map]
    refine List.mem_map.mpr ⟨e, hmem, ?_⟩
    show e.2.odId = p.odId
    rw [h2]
  · intro q hq
    unfold onRoomJoined at hq
    rw [List.mem_filter] at hq
    simpa using hq.2

/-- Witness for C1 (amended) at a concrete successful join. -/
theorem C1_amended_witness :
    addParticipant [] "room1" (Participant.mk "u1" "Alice" "sock1") 0 =
      (AddResult.ok [ParticipantInfo.mk "u1" "Alice"],
       [("room1",
         Room.mk "room1" [("u1", Participant.mk "u1" "Alice" "sock1")] 0)]) ∧
    "u1" ∈ ([ParticipantInfo.mk "u1" "Alice"]).map ParticipantInfo.odId ∧
    ∀ q ∈ onRoomJoined "u1" [ParticipantInfo.mk "u1" "Alice"],
      ¬ q.odId = "u1" := by
  have hmain := C1_amended_snapshot_includes_joiner [] "room1"
    (Participant.mk "u1" "Alice" "sock1") 0 [ParticipantInfo.mk "u1" "Alice"]
    [("room1", Room.mk "room1" [("u1", Participant.mk "u1" "Alice" "sock1")] 0)]
    (by decide)
  exact ⟨by decide, hmain.1, hmain.2⟩

/-- C2 counterexample: `room4` holds the four identities `a b c d` (only
three *other* than `a`), yet a reconnection join by `a` is rejected with
`Room is full` — the fullness check runs before the reconnection check. -/
theorem C2_counterexample :
    mapHas room4.participants "a" = true ∧
    room4.participants.length = 4 ∧
    (addParticipant reg4 "room1" (Participant.mk "a" "A" "s1New") 0).1 =
      AddResult.full := by
  exact ⟨by decide, by decide, by decide⟩

/-- C2 (amended): a join with an identity already present succeeds as a
reconnection and leaves the member count unchanged *provided the room
holds fewer than 4 participants*; `RoomFull` is returned whenever the room
already holds 4 participants in total — even when the joining identity is
among them. -/
theorem C2_amended_capacity (rooms : Registry) (roomId : String)
    (room : Room) (p : Participant) (now : Nat)
    (h : mapGet rooms roomId = some room) :
    (4 ≤ room.participants.length →
        addParticipant rooms roomId p now = (AddResult.full, rooms)) ∧
    (room.participants.length < 4 → mapHas room.participants p.odId = true →
        ∃ parts r',
          addParticipant rooms roomId p now = (AddResult.ok parts, r') ∧
          (getParticipantsList r' roomId).length =
            room.participants.length) := by
  have hoc := getOrCreateRoom_of_some rooms roomId now room h
  constructor
  · intro hfull
    simp only [addParticipant, MAX_PARTICIPANTS, hoc]
    split
    · rfl
    · next hc => exact absurd hfull hc
  · intro hlt hHas
    refine ⟨getParticipantsList
        (mapSet rooms roomId
          { room with participants := mapSet room.participants p.odId p })
        roomId,
      mapSet rooms roomId
        { room with participants := mapSet room.participants p.odId p },
      ?_, ?_⟩
    · simp only [addParticipant, MAX_PARTICIPANTS, hoc]
      split
      · next hc => exact absurd hc (Nat.not_le.mpr hlt)
      · rfl
    · have hget : mapGet
          (mapSet rooms roomId
            { room with participants := mapSet room.participants p.odId p })
          roomId =
          some { room with participants := mapSet room.participants p.odId p } :=
        mapGet_mapSet_self _ roomId _
      unfold getParticipantsList
      rw [hget]
      simp [List.length_map, length_mapSet, hHas]

/-- Witness for C2 (amended): a fifth joiner on the full `room4` is
refused, and alice's reconnection in the two-member room succeeds without
changing the member count. -/
theorem C2_witness :
    addParticipant reg4 "room1" (Participant.mk "e" "E" "s5") 0 =
      (AddResult.full, reg4) ∧
    (∃ parts r',
      addParticipant regAB "room1" (Participant.mk "alice" "Alice" "sockA2") 0 =
        (AddResult.ok parts, r') ∧
      (getParticipantsList r' "room1").length = 2) := by
  have h1 := C2_amended_capacity reg4 "room1" room4
    (Participant.mk "e" "E" "s5") 0 (by decide)
  have h2 := C2_amended_capacity regAB "room1"
    (Room.mk "room1"
      [("alice", Participant.mk "alice" "Alice" "sockA"),
       ("bob", Participant.mk "bob" "Bob" "sockB")] 0)
    (Participant.mk "alice" "Alice" "sockA2") 0 (by decide)
  exact ⟨h1.1 (by decide), h2.2 (by decide) (by decide)⟩

/-- C5: `route` (i.e. `getParticipantSocketId`) resolves to exactly the
connection handle supplied by the most recent successful join of the
target in the room — a successful (re)join stores its handle, replacing
any earlier one, and a failed (room-full) join leaves the registry
untouched. -/
theorem C5_route_last_registration (rooms : Registry) (roomId : String)
    (p : Participant) (now : Nat) :
    (∀ parts r', addParticipant rooms roomId p now = (AddResult.ok parts, r') →
        ¬ p.socketId = "" →
        getParticipantSocketId r' roomId p.odId = some p.socketId) ∧
    (∀ r', addParticipant rooms roomId p now = (AddResult.full, r') →
        r' = rooms) := by
  constructor
  · intro parts r' h hs
    obtain ⟨hlen, hr, hp⟩ := addParticipant_ok_spec rooms roomId p now parts r' h
    have hget : mapGet r' roomId =
        some { (getOrCreateRoom rooms roomId now).2 with
               participants :=
                 mapSet (getOrCreateRoom rooms roomId now).2.participants
                   p.odId p } := by
      rw [hr]; exact mapGet_mapSet_self _ roomId _
    unfold getParticipantSocketId
    rw [hget]
    dsimp only
    rw [mapGet_mapSet_self]
    dsimp only
    rw [if_neg hs]
  · intro r' h
    exact (addParticipant_full_spec rooms roomId p now r' h).2.1

/-- Witness for C5: `alice` reconnects with a new socket; `route` then
returns the new handle. -/
theorem C5_witness :
    addParticipant
        [("room1",
          Room.mk "room1" [("alice", Participant.mk "alice" "Alice" "sock1")] 0)]
        "room1" (Participant.mk "alice" "Alice" "sock2") 0 =
      (AddResult.ok [ParticipantInfo.mk "alice" "Alice"],
       [("room1",
         Room.mk "room1" [("alice", Participant.mk "alice" "Alice" "sock2")] 0)]) ∧
    getParticipantSocketId
        [("room1",
          Room.mk "room1" [("alice", Participant.mk "alice" "Alice" "sock2")] 0)]
        "room1" "alice" = some "sock2" := by
  refine ⟨by decide, ?_⟩
  exact (C5_route_last_registration
      [("room1",
        Room.mk "room1" [("alice", Participant.mk "alice" "Alice" "sock1")] 0)]
      "room1" (Participant.mk "alice" "Alice" "sock2") 0).1
    [ParticipantInfo.mk "alice" "Alice"]
    [("room1",
      Room.mk "room1" [("alice", Participant.mk "alice" "Alice" "sock2")] 0)]
    (by decide) (by decide)

/-- The shape invariant tying the registry driven by join/leave traffic on
one fixed room to the spec-level member list `S`: the registry is empty
exactly when `S` is, and otherwise holds that single room, whose keys (in
insertion order) are `S`. -/
def C4Inv (roomId : String) (rooms : Registry) (S : List String) : Prop :=
  (rooms = [] ∧ S = []) ∨
  (∃ room : Room, rooms = [(roomId, room)] ∧
     room.participants.map Prod.fst = S ∧ ¬ S = [])

theorem C4Inv_step (roomId : String) (rooms : Registry) (S : List String)
    (op : Op) (h : C4Inv roomId rooms S) :
    C4Inv roomId (applyOp roomId rooms op) (specStep S op) := by
  cases op with
  | joinOp i n s =>
      rcases h with ⟨hr, hS⟩ | ⟨room, hr, hS, hne⟩
      · subst hr; subst hS
        have hge : getOrCreateRoom [] roomId 0 =
            ([(roomId, Room.mk roomId [] 0)], Room.mk roomId [] 0) := by
          rw [getOrCreateRoom_of_none [] roomId 0 rfl, mapSet_nil]
        have hadd : (addParticipant [] roomId (Participant.mk i n s) 0).2 =
            [(roomId, Room.mk roomId [(i, Participant.mk i n s)] 0)] := by
          simp only [addParticipant, MAX_PARTICIPANTS, hge]
          split
          · next hc => exact absurd hc (by decide)
          · show mapSet [(roomId, Room.mk roomId [] 0)] roomId _ = _
            rw [mapSet_singleton_self, mapSet_nil]
        show C4Inv roomId (addParticipant [] roomId (Participant.mk i n s) 0).2
          (specStep [] (Op.joinOp i n s))
        rw [hadd]
        right
        exact ⟨Room.mk roomId [(i, Participant.mk i n s)] 0, rfl,
          by simp [specStep], by simp [specStep]⟩
      · subst hr
        have hget : mapGet [(roomId, room)] roomId = some room :=
          mapGet_singleton_self roomId room
        have hoc := getOrCreateRoom_of_some [(roomId, room)] roomId 0 room hget
        have hslen : S.length = room.participants.length := by
          rw [← hS, List.length_map]
        by_cases hlen : 4 ≤ room.participants.length
        · have hadd : (addParticipant [(roomId, room)] roomId
              (Participant.mk i n s) 0).2 = [(roomId, room)] := by
            simp only [addParticipant, MAX_PARTICIPANTS, hoc]
            split
            · rfl
            · next hc => exact absurd hlen hc
          have hstep : specStep S (Op.joinOp i n s) = S := by
            simp only [specStep]
            by_cases hi : i ∈ S
            · rw [if_pos hi]
            · rw [if_neg hi, if_neg (by omega)]
          show C4Inv roomId
            (addParticipant [(roomId, room)] roomId (Participant.mk i n s) 0).2
            (specStep S (Op.joinOp i n s))
          rw [hadd, hstep]
          exact Or.inr ⟨room, rfl, hS, hne⟩
        · have hadd : (addParticipant [(roomId, room)] roomId
              (Participant.mk i n s) 0).2 =
              [(roomId, Room.mk room.id (mapSet room.participants i (Participant.mk i n s)) room.createdAt)] := by
            simp only [addParticipant, MAX_PARTICIPANTS, hoc]
            split
            · next hc => exact absurd hc hlen
            · show mapSet [(roomId, room)] roomId _ = _
              rw [mapSet_singleton_self]
          show C4Inv roomId
            (addParticipant [(roomId, room)] roomId (Participant.mk i n s) 0).2
            (specStep S (Op.joinOp i n s))
          rw [hadd]
          right
          refine ⟨Room.mk room.id (mapSet room.participants i (Participant.mk i n s)) room.createdAt,
            rfl, ?_, ?_⟩
          · show (mapSet room.participants i (Participant.mk i n s)).map
                Prod.fst = specStep S (Op.joinOp i n s)
            rw [keys_mapSet, hS]
            simp only [specStep]
            by_cases hi : i ∈ S
            · rw [if_pos ((mapHas_eq_true_iff room.participants i).mpr
                (hS ▸ hi)), if_pos hi]
            · have hnothas : ¬ mapHas room.participants i = true := by
                intro hc
                exact hi (hS ▸ (mapHas_eq_true_iff room.participants i).mp hc)
              rw [if_neg hnothas, if_neg hi, if_pos (by omega)]
          · simp only [specStep]
            by_cases hi : i ∈ S
            · rw [if_pos hi]; exact hne
            · rw [if_neg hi, if_pos (by omega)]
              simp
  | leaveOp i =>
      rcases h with ⟨hr, hS⟩ | ⟨room, hr, hS, hne⟩
      · subst hr; subst hS
        show C4Inv roomId (removeParticipant [] roomId i)
          (specStep [] (Op.leaveOp i))
        rw [removeParticipant_of_absent_room [] roomId i rfl]
        exact Or.inl ⟨rfl, by simp [specStep]⟩
      · subst hr
        have hget : mapGet [(roomId, room)] roomId = some room :=
          mapGet_singleton_self roomId room
        show C4Inv roomId (removeParticipant [(roomId, room)] roomId i)
          (specStep S (Op.leaveOp i))
        unfold removeParticipant
        rw [hget]
        dsimp only
        rw [mapSet_singleton_self]
        have hkeys : (mapDelete room.participants i).map Prod.fst =
            S.filter (fun j => ¬ j = i) := by
          rw [keys_mapDelete, hS]
        by_cases hz : (mapDelete room.participants i).length = 0
        · rw [if_pos hz, mapDelete_singleton_self]
          left
          refine ⟨rfl, ?_⟩
          have hnil : (mapDelete room.participants i).map Prod.fst = [] := by
            rw [List.map_eq_nil_iff]
            exact List.length_eq_zero.mp hz
          show specStep S (Op.leaveOp i) = []
          simp only [specStep]
          rw [← hkeys, hnil]
        · rw [if_neg hz]
          right
          refine ⟨Room.mk room.id (mapDelete room.participants i) room.createdAt,
            rfl, ?_, ?_⟩
          · exact hkeys
          · show ¬ specStep S (Op.leaveOp i) = []
            simp only [specStep]
            rw [← hkeys]
            intro hc
            exact hz (by rw [List.map_eq_nil_iff.mp hc]; rfl)

theorem C4Inv_foldl (roomId : String) (rooms : Registry) (S : List String)
    (ops : List Op) (h : C4Inv roomId rooms S) :
    C4Inv roomId (applyOps roomId rooms ops) (ops.foldl specStep S) := by
  induction ops generalizing rooms S with
  | nil => exact h
  | cons op t ih =>
      rw [applyOps, List.foldl_cons, List.foldl_cons]
      exact ih (applyOp roomId rooms op) (specStep S op)
        (C4Inv_step roomId rooms S op h)

theorem specStep_nodup_le (S : List String) (op : Op)
    (h : S.Nodup ∧ S.length ≤ 4) :
    (specStep S op).Nodup ∧ (specStep S op).length ≤ 4 := by
  cases op with
  | joinOp i n s =>
      simp only [specStep]
      by_cases hi : i ∈ S
      · rw [if_pos hi]; exact h
      · rw [if_neg hi]
        by_cases hl : S.length < 4
        · rw [if_pos hl]
          constructor
          · refine List.nodup_append.mpr ⟨h.1, List.nodup_singleton i, ?_⟩
            intro a ha hai
            rw [List.mem_singleton.mp hai] at ha
            exact hi ha
          · rw [List.length_append]
            simp
            omega
        · rw [if_neg hl]; exact h
  | leaveOp i =>
      simp only [specStep]
      exact ⟨h.1.filter _,
        le_trans (List.length_filter_le _ _) h.2⟩

theorem specMembers_nodup_le (ops : List Op) (S : List String)
    (h : S.Nodup ∧ S.length ≤ 4) :
    (ops.foldl specStep S).Nodup ∧ (ops.foldl specStep S).length ≤ 4 := by
  induction ops generalizing S with
  | nil => exact h
  | cons op t ih =>
      rw [List.foldl_cons]
      exact ih (specStep S op) (specStep_nodup_le S op h)

/-- C4: for every sequence of joins and leaves on one fixed room starting
from the empty registry, `getStats().totalParticipants` equals the number
of distinct identities currently joined and not yet left (the spec-level
member list is duplicate-free, so its length counts distinct identities),
and that count never exceeds 4. -/
theorem C4_stats_invariant (roomId : String) (ops : List Op) :
    (getStats (applyOps roomId [] ops)).totalParticipants =
      (specMembers ops).length ∧
    (specMembers ops).Nodup ∧ (specMembers ops).length ≤ 4 := by
  have hq := specMembers_nodup_le ops [] ⟨List.nodup_nil, by simp⟩
  refine ⟨?_, hq.1, hq.2⟩
  have hinv := C4Inv_foldl roomId [] [] ops (Or.inl ⟨rfl, rfl⟩)
  rcases hinv with ⟨hr, hS⟩ | ⟨room, hr, hS, hne⟩
  · show (getStats (applyOps roomId [] ops)).totalParticipants =
      (ops.foldl specStep []).length
    rw [hr, hS]
    rfl
  · show (getStats (applyOps roomId [] ops)).totalParticipants =
      (ops.foldl specStep []).length
    rw [hr, ← hS, List.length_map]
    simp [getStats]

theorem removeParticipant_last (rooms : Registry) (roomId i : String)
    (room : Room) (h : mapGet rooms roomId = some room)
    (hk : room.participants.map Prod.fst = [i]) :
    mapGet (removeParticipant rooms roomId i) roomId = none := by
  obtain ⟨pp, hp⟩ := singleton_keys room.participants i hk
  have hdel : mapDelete room.participants i = [] := by
    rw [hp, mapDelete_cons, if_pos rfl]
    rfl
  unfold removeParticipant
  rw [h]
  dsimp only
  rw [hdel]
  simp only [List.length_nil, if_pos rfl]
  exact mapGet_mapDelete_self _ roomId

/-- C6: removing the last remaining participant of a room deletes the
room at once, and `route` (`getParticipantSocketId`) keeps answering
`none` for that room across any further traffic that contains no join on
it; removing from an absent room, or removing an identity that is not in
the (non-empty) room, is a no-op, not an error. -/
theorem C6_remove_last_then_not_found (rooms : Registry) (roomId i : String)
    (room : Room) (ops : List GOp) (j : String) :
    (mapGet rooms roomId = some room →
      room.participants.map Prod.fst = [i] →
      (∀ op ∈ ops, isJoinOn roomId op = false) →
      mapGet (applyGOps (removeParticipant rooms roomId i) ops) roomId = none ∧
      getParticipantSocketId (applyGOps (removeParticipant rooms roomId i) ops)
        roomId j = none) ∧
    (mapGet rooms roomId = none → removeParticipant rooms roomId i = rooms) ∧
    ((rooms.map Prod.fst).Nodup → mapGet rooms roomId = some room →
      mapGet room.participants i = none → ¬ room.participants = [] →
      removeParticipant rooms roomId i = rooms) := by
  refine ⟨?_, ?_, ?_⟩
  · intro h hk hops
    have h1 := removeParticipant_last rooms roomId i room h hk
    have h2 := applyGOps_preserves_absent _ roomId ops h1 hops
    exact ⟨h2, getParticipantSocketId_of_absent_room _ roomId j h2⟩
  · exact removeParticipant_of_absent_room rooms roomId i
  · intro hnd h hni hne
    unfold removeParticipant
    rw [h]
    dsimp only
    have hdel : mapDelete room.participants i = room.participants :=
      mapDelete_of_absent _ i hni
    rw [hdel]
    have hcond : ¬ room.participants.length = 0 := by
      intro hz
      exact hne (List.length_eq_zero.mp hz)
    rw [if_neg hcond]
    exact mapSet_of_get_eq rooms roomId room hnd h

/-- Witness for C6: removing the sole member `u1` of `room1`, followed by
a stray leave and a join on another room, keeps `room1` unknown; removing
from a missing room and removing an absent identity are no-ops. -/
theorem C6_witness :
    (mapGet
        (applyGOps
          (removeParticipant
            [("room1", Room.mk "room1" [("u1", Participant.mk "u1" "U" "s1")] 0)]
            "room1" "u1")
          [GOp.gLeave "room1" "u2", GOp.gJoin "room2" "x" "X" "sx"])
        "room1" = none ∧
      getParticipantSocketId
        (applyGOps
          (removeParticipant
            [("room1", Room.mk "room1" [("u1", Participant.mk "u1" "U" "s1")] 0)]
            "room1" "u1")
          [GOp.gLeave "room1" "u2", GOp.gJoin "room2" "x" "X" "sx"])
        "room1" "u9" = none) ∧
    removeParticipant
        [("room1", Room.mk "room1" [("u1", Participant.mk "u1" "U" "s1")] 0)]
        "other" "u1" =
      [("room1", Room.mk "room1" [("u1", Participant.mk "u1" "U" "s1")] 0)] ∧
    removeParticipant
        [("room1", Room.mk "room1" [("u1", Participant.mk "u1" "U" "s1")] 0)]
        "room1" "u2" =
      [("room1", Room.mk "room1" [("u1", Participant.mk "u1" "U" "s1")] 0)] := by
  have hmain := C6_remove_last_then_not_found
    [("room1", Room.mk "room1" [("u1", Participant.mk "u1" "U" "s1")] 0)]
    "room1" "u1" (Room.mk "room1" [("u1", Participant.mk "u1" "U" "s1")] 0)
    [GOp.gLeave "room1" "u2", GOp.gJoin "room2" "x" "X" "sx"] "u9"
  have hmain2 := C6_remove_last_then_not_found
    [("room1", Room.mk "room1" [("u1", Participant.mk "u1" "U" "s1")] 0)]
    "other" "u1" (Room.mk "room1" [("u1", Participant.mk "u1" "U" "s1")] 0)
    [] "u9"
  have hmain3 := C6_remove_last_then_not_found
    [("room1", Room.mk "room1" [("u1", Participant.mk "u1" "U" "s1")] 0)]
    "room1" "u2" (Room.mk "room1" [("u1", Participant.mk "u1" "U" "s1")] 0)
    [] "u9"
  refine ⟨hmain.1 (by decide) (by decide) (by decide),
    hmain2.2.1 (by decide),
    hmain3.2.2 (by decide) (by decide) (by decide) (by decide)⟩

theorem scrub_mapGet_rel (r1 r2 : Registry) (rid : String)
    (h : scrubRegistry r1 = scrubRegistry r2) :
    (mapGet r1 rid).map scrubRoom = (mapGet r2 rid).map scrubRoom := by
  rw [← mapGet_map_comm scrubRoom r1 rid, ← mapGet_map_comm scrubRoom r2 rid]
  exact congrArg (fun m => mapGet m rid) h

theorem partsList_eq_of_scrubRoom (room1 room2 : Room)
    (h : scrubRoom room1 = scrubRoom room2) :
    room1.participants.map
        (fun e => ({ odId := e.2.odId, name := e.2.name } : ParticipantInfo)) =
      room2.participants.map
        (fun e => { odId := e.2.odId, name := e.2.name }) := by
  have hp : room1.participants.map (fun e => (e.1, scrubParticipant e.2)) =
      room2.participants.map (fun e => (e.1, scrubParticipant e.2)) :=
    congrArg RoomS.participants h
  calc room1.participants.map
        (fun e => ({ odId := e.2.odId, name := e.2.name } : ParticipantInfo))
      = (room1.participants.map (fun e => (e.1, scrubParticipant e.2))).map
          Prod.snd := by rw [List.map_map]; rfl
    _ = (room2.participants.map (fun e => (e.1, scrubParticipant e.2))).map
          Prod.snd := by rw [hp]
    _ = room2.participants.map (fun e => { odId := e.2.odId, name := e.2.name }) := by
          rw [List.map_map]; rfl

theorem getParticipantsList_scrub_inv (r1 r2 : Registry) (roomId : String)
    (h : scrubRegistry r1 = scrubRegistry r2) :
    getParticipantsList r1 roomId = getParticipantsList r2 roomId := by
  have hg := scrub_mapGet_rel r1 r2 roomId h
  unfold getParticipantsList
  cases hx : mapGet r1 roomId with
  | none =>
      cases hy : mapGet r2 roomId with
      | none => rfl
      | some room2 => rw [hx, hy] at hg; cases hg
  | some room1 =>
      cases hy : mapGet r2 roomId with
      | none => rw [hx, hy] at hg; cases hg
      | some room2 =>
          rw [hx, hy] at hg
          exact partsList_eq_of_scrubRoom room1 room2 (Option.some.inj hg)

theorem proj_mapSet_scrub (l1 l2 : List (String × Participant)) (p : Participant)
    (h : l1.map (fun e => (e.1, scrubParticipant e.2)) =
      l2.map (fun e => (e.1, scrubParticipant e.2))) :
    (mapSet l1 p.odId p).map
        (fun e => ({ odId := e.2.odId, name := e.2.name } : ParticipantInfo)) =
      (mapSet l2 p.odId p).map
        (fun e => { odId := e.2.odId, name := e.2.name }) := by
  have h1 := mapSet_map_comm scrubParticipant l1 p.odId p
  have h2 := mapSet_map_comm scrubParticipant l2 p.odId p
  calc (mapSet l1 p.odId p).map
        (fun e => ({ odId := e.2.odId, name := e.2.name } : ParticipantInfo))
      = ((mapSet l1 p.odId p).map (fun e => (e.1, scrubParticipant e.2))).map
          Prod.snd := by rw [List.map_map]; rfl
    _ = (mapSet (l1.map (fun e => (e.1, scrubParticipant e.2))) p.odId
          (scrubParticipant p)).map Prod.snd := by rw [h1]
    _ = (mapSet (l2.map (fun e => (e.1, scrubParticipant e.2))) p.odId
          (scrubParticipant p)).map Prod.snd := by rw [h]
    _ = ((mapSet l2 p.odId p).map (fun e => (e.1, scrubParticipant e.2))).map
          Prod.snd := by rw [h2]
    _ = (mapSet l2 p.odId p).map
          (fun e => { odId := e.2.odId, name := e.2.name }) := by
        rw [List.map_map]; rfl

theorem addParticipant_fst_of_none (r : Registry) (rid : String)
    (p : Participant) (now : Nat) (h : mapGet r rid = none) :
    (addParticipant r rid p now).1 =
      AddResult.ok [{ odId := p.odId, name := p.name }] := by
  have hoc := getOrCreateRoom_of_none r rid now h
  simp only [addParticipant, MAX_PARTICIPANTS, hoc]
  split
  · next hc => exact absurd hc (by decide)
  · show AddResult.ok (getParticipantsList _ rid) = _
    unfold getParticipantsList
    rw [mapGet_mapSet_self]
    simp [mapSet_nil]

theorem addParticipant_fst_of_some (r : Registry) (rid : String)
    (p : Participant) (now : Nat) (room : Room)
    (h : mapGet r rid = some room) :
    (addParticipant r rid p now).1 =
      if 4 ≤ room.participants.length then AddResult.full
      else AddResult.ok ((mapSet room.participants p.odId p).map
        (fun e => { odId := e.2.odId, name := e.2.name })) := by
  have hoc := getOrCreateRoom_of_some r rid now room h
  simp only [addParticipant, MAX_PARTICIPANTS, hoc]
  split
  · rfl
  · show AddResult.ok (getParticipantsList _ rid) = _
    unfold getParticipantsList
    rw [mapGet_mapSet_self]

theorem addParticipant_fst_scrub (r1 r2 : Registry) (rid : String)
    (p : Participant) (now : Nat)
    (h : scrubRegistry r1 = scrubRegistry r2) :
    (addParticipant r1 rid p now).1 = (addParticipant r2 rid p now).1 := by
  have hg := scrub_mapGet_rel r1 r2 rid h
  cases hx : mapGet r1 rid with
  | none =>
      cases hy : mapGet r2 rid with
      | none =>
          rw [addParticipant_fst_of_none r1 rid p now hx,
            addParticipant_fst_of_none r2 rid p now hy]
      | some room2 => rw [hx, hy] at hg; cases hg
  | some room1 =>
      cases hy : mapGet r2 rid with
      | none => rw [hx, hy] at hg; cases hg
      | some room2 =>
          rw [hx, hy] at hg
          have hs : scrubRoom room1 = scrubRoom room2 := Option.some.inj hg
          have hpp : room1.participants.map (fun e => (e.1, scrubParticipant e.2)) =
              room2.participants.map (fun e => (e.1, scrubParticipant e.2)) :=
            congrArg RoomS.participants hs
          have hlen : room1.participants.length = room2.participants.length := by
            have h1 := congrArg List.length hpp
            rwa [List.length_map, List.length_map] at h1
          rw [addParticipant_fst_of_some r1 rid p now room1 hx,
            addParticipant_fst_of_some r2 rid p now room2 hy, hlen]
          by_cases hl : 4 ≤ room2.participants.length
          · rw [if_pos hl, if_pos hl]
          · rw [if_neg hl, if_neg hl,
              proj_mapSet_scrub room1.participants room2.participants p hpp]

/-- C10: the participant data sent to clients never depends on the stored
transport handles: two registries with the same `socketId`-scrubbed
contents yield identical `getParticipantsList` results, and the
`join-room` handler run against them emits identical messages (the
`room-joined` snapshot and the `user-joined` notice carry only identities
and display names). -/
theorem C10_no_socketId_leak (r1 r2 : Registry) (roomId : String)
    (sd : SocketData) (socketId : String) (req : JoinRequest) (now : Nat)
    (h : scrubRegistry r1 = scrubRegistry r2) :
    getParticipantsList r1 roomId = getParticipantsList r2 roomId ∧
    (joinRoomHandler r1 sd socketId req now).2.2 =
      (joinRoomHandler r2 sd socketId req now).2.2 := by
  refine ⟨getParticipantsList_scrub_inv r1 r2 roomId h, ?_⟩
  simp only [joinRoomHandler]
  by_cases hv : (jsFalsy req.roomId || jsFalsy req.userId) = true
  · rw [if_pos hv, if_pos hv]
  · rw [if_neg hv, if_neg hv]
    cases hro : req.roomId with
    | none => simp [jsFalsy, hro] at hv
    | some rid =>
        cases hu : req.userId with
        | none => simp [jsFalsy, hro, hu] at hv
        | some uid =>
            dsimp only
            have hfst := addParticipant_fst_scrub r1 r2 rid
              { odId := uid, name := defaultName uid req.name
                socketId := socketId } now h
            cases hres : (addParticipant r1 rid
              { odId := uid, name := defaultName uid req.name
                socketId := socketId } now).1 with
            | full =>
                rw [hres] at hfst
                rw [← hfst]
            | ok parts =>
                rw [hres] at hfst
                rw [← hfst]

/-- Witness for C10: two registries differing only in alice's stored
socket produce the same participant list and the same `join-room` emits. -/
theorem C10_witness :
    scrubRegistry
        [("room1", Room.mk "room1" [("alice", Participant.mk "alice" "Alice" "sockA")] 0)] =
      scrubRegistry
        [("room1", Room.mk "room1" [("alice", Participant.mk "alice" "Alice" "sockZ")] 0)] ∧
    getParticipantsList
        [("room1", Room.mk "room1" [("alice", Participant.mk "alice" "Alice" "sockA")] 0)]
        "room1" =
      getParticipantsList
        [("room1", Room.mk "room1" [("alice", Participant.mk "alice" "Alice" "sockZ")] 0)]
        "room1" ∧
    (joinRoomHandler
        [("room1", Room.mk "room1" [("alice", Participant.mk "alice" "Alice" "sockA")] 0)]
        (SocketData.mk none none) "sockB"
        (JoinRequest.mk (some "room1") (some "bob") none) 0).2.2 =
      (joinRoomHandler
        [("room1", Room.mk "room1" [("alice", Participant.mk "alice" "Alice" "sockZ")] 0)]
        (SocketData.mk none none) "sockB"
        (JoinRequest.mk (some "room1") (some "bob") none) 0).2.2 := by
  have hmain := C10_no_socketId_leak
    [("room1", Room.mk "room1" [("alice", Participant.mk "alice" "Alice" "sockA")] 0)]
    [("room1", Room.mk "room1" [("alice", Participant.mk "alice" "Alice" "sockZ")] 0)]
    "room1" (SocketData.mk none none) "sockB"
    (JoinRequest.mk (some "room1") (some "bob") none) 0 (by decide)
  exact ⟨by decide, hmain.1, hmain.2⟩

/-- Witness for C7 at a concrete pair of engines. -/
theorem C7_witness :
    mapGet (ClientState.mk "a" [] (EngineState.mk [] 0)).engine.peerConnections
        "b" = none ∧
    (clientStep (ClientState.mk "a" [] (EngineState.mk [] 0))
        (ClientIn.userJoined "b" "B")).2 = [ClientOut.offerOut "b" "offer-sdp"] ∧
    (clientStep (ClientState.mk "b" [] (EngineState.mk [] 0))
        (ClientIn.roomJoined [ParticipantInfo.mk "a" "A"])).2 = [] := by
  have hmain := C7_asymmetric_initiator (ClientState.mk "a" [] (EngineState.mk [] 0))
    (ClientState.mk "b" [] (EngineState.mk [] 0)) "b" "B"
    [ParticipantInfo.mk "a" "A"] rfl
  exact ⟨rfl, hmain.1, hmain.2.2.2⟩

end VC
